import Mathlib

/-!
Shallow embedding of the media-gen-MCP-calls repository:
the `generateViduVideo` tool (input normalization: prompt resolution,
prompt sanitization, duration clamping) and the Vidu provider client
(`createViduVideo`, tolerant field extraction, status mapping).

JavaScript strings are modelled as Lean `String`/`List Char`; JavaScript
numbers (which may be `undefined`, `NaN` or infinite) as an option of an
inductive over `Rat`; parsed JSON bodies as an inductive `Json` value with
objects as association lists (JSON.parse keeps one binding per key).
Node's `Buffer` base64/UTF-8 decoding is library code outside the
repository and is passed in as an explicit `decode` parameter.
The outbound `fetch` is modelled by passing in the provider's
`HttpResponse` and returning, next to the result, the list of requests
that were issued (empty when the code throws before the network call).
-/

/-! ## JavaScript whitespace and string helpers -/

/-- Code points matched by the JavaScript regexp class `\s` and trimmed by
`String.prototype.trim` (WhiteSpace plus LineTerminator productions). -/
def isJsWsNat (n : Nat) : Bool :=
  n = 0x9 || n = 0xa || n = 0xb || n = 0xc || n = 0xd || n = 0x20 ||
  n = 0xa0 || n = 0x1680 || (0x2000 ≤ n && n ≤ 0x200a) ||
  n = 0x2028 || n = 0x2029 || n = 0x202f || n = 0x205f || n = 0x3000 ||
  n = 0xfeff

def isJsWs (c : Char) : Bool := isJsWsNat c.toNat

/-- Head character is JavaScript whitespace. -/
def headWs : List Char → Bool
  | [] => false
  | c :: _ => isJsWs c

/-- Last character is JavaScript whitespace. -/
def lastWs : List Char → Bool
  | [] => false
  | [c] => isJsWs c
  | _ :: c :: rest => lastWs (c :: rest)

/-- Two adjacent JavaScript-whitespace characters occur somewhere. -/
def hasWsPair : List Char → Bool
  | [] => false
  | [_] => false
  | a :: b :: rest => (isJsWs a && isJsWs b) || hasWsPair (b :: rest)

/-- Two adjacent plain space characters occur somewhere. -/
def hasDoubleSpace : List Char → Bool
  | [] => false
  | [_] => false
  | a :: b :: rest => (a = ' ' && b = ' ') || hasDoubleSpace (b :: rest)

/-- JavaScript `String.prototype.trim` on a character list. -/
def trimList (l : List Char) : List Char :=
  ((l.dropWhile isJsWs).reverse.dropWhile isJsWs).reverse

/-- JavaScript `String.prototype.trim`. -/
def jsTrim (s : String) : String := ⟨trimList s.data⟩

/-- Boolean list-prefix test (JavaScript `String.prototype.startsWith`). -/
def listPrefixOf : List Char → List Char → Bool
  | [], _ => true
  | _ :: _, [] => false
  | c :: cs, d :: ds => c = d && listPrefixOf cs ds

def strStartsWith (s pre : String) : Bool := listPrefixOf pre.data s.data

/-- JavaScript `String.prototype.toLowerCase` (ASCII range; the status
labels classified by the client are ASCII). -/
def strToLower (s : String) : String := ⟨s.data.map Char.toLower⟩

/-- JavaScript truthiness of an optional string (`undefined` and `""` are
falsy). -/
def strOptTruthy : Option String → Bool
  | none => false
  | some s => decide (s ≠ "")

/-- JavaScript `x || undefined` on an optional string. -/
def optTruthyOrNone : Option String → Option String
  | none => none
  | some s => if s = "" then none else some s

/-! ## Prompt sanitization (`cleanPromptForVidu`, generateViduVideo.ts) -/

/-- Step 1 of `cleanPromptForVidu`: `.replace(/[  ]/g, " ")`. -/
def replaceSeps (l : List Char) : List Char :=
  l.map (fun c => if c.toNat = 0x2028 || c.toNat = 0x2029 then ' ' else c)

/-- Step 2 of `cleanPromptForVidu`: `.replace(/\r?\n/g, " ")` as a
left-to-right scan (a lone CR is not replaced by this step). -/
def replaceNewls : List Char → List Char
  | [] => []
  | [c] => if c = '\n' then [' '] else [c]
  | c :: d :: rest =>
    if c = '\r' && d = '\n' then ' ' :: replaceNewls rest
    else if c = '\n' then ' ' :: replaceNewls (d :: rest)
    else c :: replaceNewls (d :: rest)

/-- Step 3 of `cleanPromptForVidu`: `.replace(/\s+/g, " ")`; the flag
records whether the previous character was part of a whitespace run. -/
def collapseAux : Bool → List Char → List Char
  | _, [] => []
  | prevWs, c :: rest =>
    if isJsWs c then
      if prevWs then collapseAux true rest
      else ' ' :: collapseAux true rest
    else c :: collapseAux false rest

/-- The sanitization pipeline of `cleanPromptForVidu` on character
lists: separator replacement, newline replacement, whitespace-run
collapse, trim. -/
def cleanList (l : List Char) : List Char :=
  trimList (collapseAux false (replaceNewls (replaceSeps l)))

/-- `cleanPromptForVidu` from src/tools/generateViduVideo.ts. -/
def cleanPromptForVidu (raw : String) : String := ⟨cleanList raw.data⟩

/-! ## Duration clamping (`clampDuration`, generateViduVideo.ts) -/

def MIN_DURATION_SECONDS : Rat := 1
def MAX_DURATION_SECONDS : Rat := 8
def DEFAULT_DURATION_SECONDS : Rat := 4

/-- A JavaScript number: `NaN`, an infinity, or a finite value. -/
inductive JsNum where
  | nan
  | posInf
  | negInf
  | fin (q : Rat)
deriving DecidableEq

/-- `clampDuration` from src/tools/generateViduVideo.ts: an absent value
(`typeof value !== "number"`), `NaN` or a non-finite value yields the
default; otherwise `Math.min(MAX, Math.max(MIN, value))`. -/
def clampDuration : Option JsNum → Rat
  | none => DEFAULT_DURATION_SECONDS
  | some JsNum.nan => DEFAULT_DURATION_SECONDS
  | some JsNum.posInf => DEFAULT_DURATION_SECONDS
  | some JsNum.negInf => DEFAULT_DURATION_SECONDS
  | some (JsNum.fin q) => min MAX_DURATION_SECONDS (max MIN_DURATION_SECONDS q)

/-! ## Parsed JSON bodies and field extraction (viduClient.ts) -/

/-- A parsed JSON value; objects carry one binding per key, as produced
by `JSON.parse`. -/
inductive Json where
  | null
  | bool (b : Bool)
  | num (q : Rat)
  | str (s : String)
  | arr (elems : List Json)
  | obj (fields : List (String × Json))

/-- Property lookup in an object's bindings. -/
def jlookup : List (String × Json) → String → Option Json
  | [], _ => none
  | (k, v) :: rest, key => if k = key then some v else jlookup rest key

/-- JavaScript `source[key]` for the string keys the client probes
(a non-object has none of those properties). -/
def jget : Json → String → Option Json
  | Json.obj fields, key => jlookup fields key
  | _, _ => none

/-- `extractString` from src/lib/viduClient.ts: first candidate key whose
value is a string with non-empty trim, returned unmodified; `""` when no
candidate qualifies. -/
def extractString (source : Json) : List String → String
  | [] => ""
  | key :: rest =>
    match jget source key with
    | some (Json.str v) =>
      if 0 < (jsTrim v).length then v else extractString source rest
    | _ => extractString source rest

def videoUrlKeys : List String :=
  ["video_url", "videoUrl", "output_url", "outputUrl"]

def previewImageUrlKeys : List String :=
  ["preview_image_url", "previewImageUrl", "thumbnail_url", "thumbnail"]

def jobIdKeys : List String := ["job_id", "jobId", "id"]

/-- `(responseBody ?? {})`: a missing or `null` body becomes the empty
object. -/
def parsedBody : Option Json → Json
  | none => Json.obj []
  | some Json.null => Json.obj []
  | some j => j

/-! ## The Vidu client (`createViduVideo`, viduClient.ts) -/

inductive ViduVideoStatus where
  | queued
  | completed
  | failed
deriving DecidableEq

structure CreateViduVideoOptions where
  prompt : String
  durationSeconds : Rat
  aspectRatioStr : String
  style : Option String
  referenceImageUrl : Option String

structure ViduVideoResult where
  videoUrl : String
  status : ViduVideoStatus
  /-- `none` models an omitted (`undefined`) field. -/
  previewImageUrl : Option String
  jobId : Option String
  /-- `none` models `rawResponse: undefined`. -/
  rawResponse : Option Json

/-- Process environment slice read by the client. -/
structure ViduEnv where
  apiKey : Option String
  apiUrl : Option String

/-- The provider's HTTP response: `ok` is `response.ok` (2xx), `body` is
the JSON-parsed body, `none` when `response.json()` threw. -/
structure HttpResponse where
  ok : Bool
  body : Option Json

/-- The JSON payload of the outbound POST (field `aspectRatioStr` carries
the JSON key `aspect_ratio`, `referenceImageUrl` the key
`reference_image_url`). -/
structure ViduPayload where
  prompt : String
  duration : Rat
  aspectRatioStr : String
  style : Option String
  referenceImageUrl : Option String

structure ViduRequest where
  endpoint : String
  payload : ViduPayload

def DEFAULT_VIDU_ENDPOINT : String := "https://api.vidu.com/v1/videos"

def VIDU_KEY_ERROR : String := "VIDU_API_KEY is not set in the environment"

/-- `createViduVideo` from src/lib/viduClient.ts. Returns the thrown
error or the result, together with the list of outbound requests issued
(`console.error` on the failure path is logging only and is not
modelled). -/
def createViduVideo (env : ViduEnv) (options : CreateViduVideoOptions)
    (response : HttpResponse) :
    Except String ViduVideoResult × List ViduRequest :=
  if strOptTruthy env.apiKey then
    let endpoint :=
      match env.apiUrl with
      | some u => if jsTrim u = "" then DEFAULT_VIDU_ENDPOINT else jsTrim u
      | none => DEFAULT_VIDU_ENDPOINT
    let payload : ViduPayload :=
      { prompt := options.prompt
        duration := options.durationSeconds
        aspectRatioStr := options.aspectRatioStr
        style := optTruthyOrNone (options.style.map jsTrim)
        referenceImageUrl := optTruthyOrNone options.referenceImageUrl }
    let req : ViduRequest := { endpoint := endpoint, payload := payload }
    if response.ok then
      let parsed := parsedBody response.body
      let videoUrl := extractString parsed videoUrlKeys
      let previewImageUrl := extractString parsed previewImageUrlKeys
      let jobId := extractString parsed jobIdKeys
      let rawStatus := extractString parsed ["status"]
      let status :=
        if rawStatus ≠ "" then
          let normalized := strToLower rawStatus
          if strStartsWith normalized "complete" then ViduVideoStatus.completed
          else if strStartsWith normalized "fail" || normalized = "error" then
            ViduVideoStatus.failed
          else ViduVideoStatus.queued
        else if videoUrl ≠ "" then ViduVideoStatus.completed
        else ViduVideoStatus.queued
      (Except.ok
        { videoUrl := videoUrl
          status := status
          previewImageUrl := some previewImageUrl
          jobId := some jobId
          rawResponse := some parsed }, [req])
    else
      (Except.ok
        { videoUrl := ""
          status := ViduVideoStatus.failed
          previewImageUrl := none
          jobId := none
          rawResponse := response.body }, [req])
  else
    (Except.error VIDU_KEY_ERROR, [])

/-! ## The tool entry point (generateViduVideo.ts) -/

def DEFAULT_ASPECT : String := "16:9"

structure GenerateViduVideoInput where
  prompt : Option String
  promptBase64 : Option String
  durationSeconds : Option JsNum
  aspectRatioStr : Option String
  style : Option String
  referenceImageUrl : Option String

def MISSING_PROMPT_ERROR : String := "Provide either promptBase64 or prompt."

def DECODE_PROMPT_ERROR : String :=
  "Failed to decode promptBase64. Ensure it is valid base64. " ++
  "promptBase64 decoded to an empty string"

/-- `resolvePrompt` from src/tools/generateViduVideo.ts. `decode` stands
for Node's `Buffer.from(s, "base64").toString("utf8")`, which never
throws, so the try/catch only re-wraps the explicit empty-decode throw. -/
def resolvePrompt (decode : String → String)
    (input : GenerateViduVideoInput) : Except String String :=
  match input.promptBase64 with
  | some b64 =>
    if b64 ≠ "" then
      let decoded := decode b64
      if (jsTrim decoded).length = 0 then Except.error DECODE_PROMPT_ERROR
      else Except.ok decoded
    else
      match input.prompt with
      | some p => if 0 < (jsTrim p).length then Except.ok p
                  else Except.error MISSING_PROMPT_ERROR
      | none => Except.error MISSING_PROMPT_ERROR
  | none =>
    match input.prompt with
    | some p => if 0 < (jsTrim p).length then Except.ok p
                else Except.error MISSING_PROMPT_ERROR
    | none => Except.error MISSING_PROMPT_ERROR

/-- Default export of src/tools/generateViduVideo.ts: normalize the
input, then call the client. An error thrown by the normalizer
propagates with no outbound request. -/
def generateViduVideo (decode : String → String) (env : ViduEnv)
    (input : GenerateViduVideoInput) (response : HttpResponse) :
    Except String ViduVideoResult × List ViduRequest :=
  match resolvePrompt decode input with
  | Except.error e => (Except.error e, [])
  | Except.ok rawPrompt =>
    let prompt := cleanPromptForVidu rawPrompt
    if prompt = "" then (Except.error "Prompt cannot be empty", [])
    else
      createViduVideo env
        { prompt := prompt
          durationSeconds := clampDuration input.durationSeconds
          aspectRatioStr := input.aspectRatioStr.getD DEFAULT_ASPECT
          style := optTruthyOrNone (input.style.map jsTrim)
          referenceImageUrl :=
            optTruthyOrNone (input.referenceImageUrl.map jsTrim) }
        response

/-! ## Spec-side definitions, written from the specification's words -/

/-- Modelled from the spec: the status classification as §4.2 states it —
lower-case a supplied raw status and classify by prefix `complete`,
prefix `fail` or exact `error`; without a raw status, `completed` exactly
when a video URL was extracted, else `queued`. -/
def statusSpecOfBody (rawStatus videoUrl : String) : ViduVideoStatus :=
  if rawStatus ≠ "" then
    if strStartsWith (strToLower rawStatus) "complete" then
      ViduVideoStatus.completed
    else if strStartsWith (strToLower rawStatus) "fail" ||
        strToLower rawStatus = "error" then
      ViduVideoStatus.failed
    else ViduVideoStatus.queued
  else if videoUrl ≠ "" then ViduVideoStatus.completed
  else ViduVideoStatus.queued

/-- Modelled from the spec: a candidate key qualifies when its value is a
string containing at least one non-whitespace character. -/
def qualifyingValue (source : Json) (key : String) : Option String :=
  match jget source key with
  | some (Json.str v) =>
    if v.data.any (fun c => !isJsWs c) then some v else none
  | _ => none

/-- Modelled from the spec: the value of the first qualifying candidate
key, unmodified, or the empty string when no candidate qualifies. -/
def extractStringSpec (source : Json) (keys : List String) : String :=
  (keys.filterMap (qualifyingValue source)).headD ""

/-- A character allowed by the tool schema's base64 regexp
`^[A-Za-z0-9+/=]+$`. -/
def isB64Char (c : Char) : Bool :=
  (48 ≤ c.toNat && c.toNat ≤ 57) || (65 ≤ c.toNat && c.toNat ≤ 90) ||
  (97 ≤ c.toNat && c.toNat ≤ 122) || c.toNat = 43 || c.toNat = 47 ||
  c.toNat = 61

/-- The tool schema's constraint on `promptBase64`: one or more
characters, all from the base64 alphabet. -/
def base64Pattern (s : String) : Bool :=
  decide (s ≠ "") && s.data.all isB64Char

/-- An optional string field that is absent or blank (empty or
whitespace-only). -/
def optBlank (o : Option String) : Prop :=
  o = none ∨ ∃ s, o = some s ∧ jsTrim s = ""

/-! ## Lemmas about the sanitizer pipeline -/

theorem hasWsPair_cons (a : Char) (l : List Char) :
    hasWsPair (a :: l) = ((isJsWs a && headWs l) || hasWsPair l) := by
  cases l <;> simp [hasWsPair, headWs]

theorem hasWsPair_tail {a : Char} {l : List Char}
    (h : hasWsPair (a :: l) = false) : hasWsPair l = false := by
  rw [hasWsPair_cons] at h
  exact (Bool.or_eq_false_iff.mp h).2

theorem mem_collapseAux {x : Char} :
    ∀ (l : List Char) (b : Bool), x ∈ collapseAux b l → isJsWs x = true →
      x = ' ' := by
  intro l
  induction l with
  | nil => intro b h _; simp [collapseAux] at h
  | cons c rest ih =>
    intro b h hx
    cases hc : isJsWs c with
    | true =>
      cases b with
      | true =>
        rw [show collapseAux true (c :: rest) =
          (if isJsWs c then collapseAux true rest
           else c :: collapseAux false rest) from rfl, if_pos hc] at h
        exact ih true h hx
      | false =>
        rw [show collapseAux false (c :: rest) =
          (if isJsWs c then ' ' :: collapseAux true rest
           else c :: collapseAux false rest) from rfl, if_pos hc,
          List.mem_cons] at h
        rcases h with h | h
        · exact h
        · exact ih true h hx
    | false =>
      have hni : ¬(isJsWs c = true) := by rw [hc]; exact Bool.false_ne_true
      have hh : x ∈ c :: collapseAux false rest := by
        cases b with
        | true =>
          rwa [show collapseAux true (c :: rest) =
            (if isJsWs c then collapseAux true rest
             else c :: collapseAux false rest) from rfl, if_neg hni] at h
        | false =>
          rwa [show collapseAux false (c :: rest) =
            (if isJsWs c then ' ' :: collapseAux true rest
             else c :: collapseAux false rest) from rfl, if_neg hni] at h
      rw [List.mem_cons] at hh
      rcases hh with hh | hh
      · rw [hh] at hx; rw [hx] at hc; exact absurd hc (by decide : ¬(true = false))
      · exact ih false hh hx

theorem headWs_collapseAux_true :
    ∀ l : List Char, headWs (collapseAux true l) = false := by
  intro l
  induction l with
  | nil => rfl
  | cons c rest ih =>
    by_cases hc : isJsWs c
    · simpa [collapseAux, hc] using ih
    · simp [collapseAux, hc, headWs]

theorem hasWsPair_collapseAux :
    ∀ (l : List Char) (b : Bool), hasWsPair (collapseAux b l) = false := by
  intro l
  induction l with
  | nil => intro b; rfl
  | cons c rest ih =>
    intro b
    cases hc : isJsWs c with
    | true =>
      cases b with
      | true =>
        rw [show collapseAux true (c :: rest) =
          (if isJsWs c then collapseAux true rest
           else c :: collapseAux false rest) from rfl, if_pos hc]
        exact ih true
      | false =>
        rw [show collapseAux false (c :: rest) =
          (if isJsWs c then ' ' :: collapseAux true rest
           else c :: collapseAux false rest) from rfl, if_pos hc,
          hasWsPair_cons, headWs_collapseAux_true, ih true]
        simp
    | false =>
      have hni : ¬(isJsWs c = true) := by rw [hc]; exact Bool.false_ne_true
      cases b with
      | true =>
        rw [show collapseAux true (c :: rest) =
          (if isJsWs c then collapseAux true rest
           else c :: collapseAux false rest) from rfl, if_neg hni,
          hasWsPair_cons, ih false, hc]
        simp
      | false =>
        rw [show collapseAux false (c :: rest) =
          (if isJsWs c then ' ' :: collapseAux true rest
           else c :: collapseAux false rest) from rfl, if_neg hni,
          hasWsPair_cons, ih false, hc]
        simp

theorem collapseAux_id :
    ∀ (l : List Char) (b : Bool),
      (∀ c ∈ l, isJsWs c = true → c = ' ') → hasWsPair l = false →
      (b = true → headWs l = false) → collapseAux b l = l := by
  intro l
  induction l with
  | nil => intro b _ _ _; rfl
  | cons c rest ih =>
    intro b hall hpair hb
    cases hc : isJsWs c with
    | true =>
      have hce : c = ' ' := hall c (List.mem_cons_self c rest) hc
      cases b with
      | true =>
        have hhd : headWs (c :: rest) = false := hb rfl
        rw [show headWs (c :: rest) = isJsWs c from rfl, hc] at hhd
        exact absurd hhd (by decide : ¬(true = false))
      | false =>
        have hhead : headWs rest = false := by
          rw [hasWsPair_cons, hc] at hpair
          simpa using (Bool.or_eq_false_iff.mp hpair).1
        have htail : collapseAux true rest = rest :=
          ih true (fun d hd => hall d (List.mem_cons_of_mem c hd))
            (hasWsPair_tail hpair) (fun _ => hhead)
        rw [show collapseAux false (c :: rest) =
          (if isJsWs c then ' ' :: collapseAux true rest
           else c :: collapseAux false rest) from rfl, if_pos hc, htail, hce]
    | false =>
      have hni : ¬(isJsWs c = true) := by rw [hc]; exact Bool.false_ne_true
      have htail : collapseAux false rest = rest :=
        ih false (fun d hd => hall d (List.mem_cons_of_mem c hd))
          (hasWsPair_tail hpair) (by simp)
      cases b with
      | true =>
        rw [show collapseAux true (c :: rest) =
          (if isJsWs c then collapseAux true rest
           else c :: collapseAux false rest) from rfl, if_neg hni, htail]
      | false =>
        rw [show collapseAux false (c :: rest) =
          (if isJsWs c then ' ' :: collapseAux true rest
           else c :: collapseAux false rest) from rfl, if_neg hni, htail]

theorem headWs_dropWhile (l : List Char) :
    headWs (l.dropWhile isJsWs) = false := by
  induction l with
  | nil => rfl
  | cons c rest ih =>
    by_cases hc : isJsWs c
    · simpa [List.dropWhile_cons, hc] using ih
    · simp [List.dropWhile_cons, hc, headWs]

theorem dropWhile_ws_id {l : List Char} (h : headWs l = false) :
    l.dropWhile isJsWs = l := by
  cases l with
  | nil => rfl
  | cons c rest =>
    rw [show headWs (c :: rest) = isJsWs c from rfl] at h
    simp [List.dropWhile_cons, h]

theorem hasWsPair_dropWhile {l : List Char} (h : hasWsPair l = false) :
    hasWsPair (l.dropWhile isJsWs) = false := by
  induction l with
  | nil => exact h
  | cons c rest ih =>
    by_cases hc : isJsWs c
    · rw [List.dropWhile_cons, if_pos hc]
      exact ih (hasWsPair_tail h)
    · rwa [List.dropWhile_cons, if_neg hc]

theorem lastWs_cons {c : Char} {l : List Char} (h : l ≠ []) :
    lastWs (c :: l) = lastWs l := by
  cases l with
  | nil => exact absurd rfl h
  | cons d rest => rfl

theorem lastWs_concat (l : List Char) (c : Char) :
    lastWs (l ++ [c]) = isJsWs c := by
  induction l with
  | nil => rfl
  | cons a rest ih => rw [List.cons_append, lastWs_cons (by simp), ih]

theorem lastWs_reverse (l : List Char) : lastWs l.reverse = headWs l := by
  cases l with
  | nil => rfl
  | cons c rest => rw [List.reverse_cons, lastWs_concat]; rfl

theorem headWs_reverse (l : List Char) : headWs l.reverse = lastWs l := by
  have h := lastWs_reverse l.reverse
  rw [List.reverse_reverse] at h
  exact h.symm

theorem hasWsPair_concat (l : List Char) (c : Char) :
    hasWsPair (l ++ [c]) = (hasWsPair l || (lastWs l && isJsWs c)) := by
  induction l with
  | nil => simp [hasWsPair, lastWs]
  | cons a rest ih =>
    cases rest with
    | nil => simp [hasWsPair, lastWs, headWs]
    | cons b rest2 =>
      rw [List.cons_append, List.cons_append]
      rw [show hasWsPair (a :: b :: (rest2 ++ [c])) =
        ((isJsWs a && isJsWs b) || hasWsPair (b :: (rest2 ++ [c]))) from rfl]
      rw [show (b :: (rest2 ++ [c])) = ((b :: rest2) ++ [c]) from rfl, ih]
      rw [show hasWsPair (a :: b :: rest2) =
        ((isJsWs a && isJsWs b) || hasWsPair (b :: rest2)) from rfl]
      rw [show lastWs (a :: b :: rest2) = lastWs (b :: rest2) from rfl]
      rw [Bool.or_assoc]

theorem hasWsPair_reverse (l : List Char) :
    hasWsPair l.reverse = hasWsPair l := by
  induction l with
  | nil => rfl
  | cons c rest ih =>
    rw [List.reverse_cons, hasWsPair_concat, ih, lastWs_reverse,
      hasWsPair_cons, Bool.and_comm, Bool.or_comm]

theorem lastWs_dropWhile {l : List Char} (h : l.dropWhile isJsWs ≠ []) :
    lastWs (l.dropWhile isJsWs) = lastWs l := by
  induction l with
  | nil => exact absurd rfl h
  | cons c rest ih =>
    by_cases hc : isJsWs c
    · rw [List.dropWhile_cons, if_pos hc] at h ⊢
      have hrest : rest ≠ [] := by
        intro he; rw [he] at h; exact h rfl
      rw [ih h, lastWs_cons hrest]
    · rw [List.dropWhile_cons, if_neg hc]

theorem trimList_props (l : List Char)
    (hall : ∀ c ∈ l, isJsWs c = true → c = ' ')
    (hpair : hasWsPair l = false) :
    (∀ c ∈ trimList l, isJsWs c = true → c = ' ') ∧
    hasWsPair (trimList l) = false ∧ headWs (trimList l) = false ∧
    lastWs (trimList l) = false := by
  unfold trimList
  have hmem : ∀ c ∈ ((l.dropWhile isJsWs).reverse.dropWhile
      isJsWs).reverse, c ∈ l := by
    intro c hc
    rw [List.mem_reverse] at hc
    have hc2 := (List.dropWhile_sublist isJsWs).subset hc
    rw [List.mem_reverse] at hc2
    exact (List.dropWhile_sublist isJsWs).subset hc2
  have hp1 : hasWsPair ((l.dropWhile isJsWs).reverse) = false := by
    rw [hasWsPair_reverse]
    exact hasWsPair_dropWhile hpair
  refine ⟨fun c hc => hall c (hmem c hc), ?_, ?_, ?_⟩
  · rw [hasWsPair_reverse]
    exact hasWsPair_dropWhile hp1
  · by_cases hn : (l.dropWhile isJsWs).reverse.dropWhile isJsWs = []
    · rw [hn]; rfl
    · rw [headWs_reverse, lastWs_dropWhile hn, lastWs_reverse]
      exact headWs_dropWhile l
  · rw [lastWs_reverse]
    exact headWs_dropWhile _

theorem cleanList_props (l : List Char) :
    (∀ c ∈ cleanList l, isJsWs c = true → c = ' ') ∧
    hasWsPair (cleanList l) = false ∧ headWs (cleanList l) = false ∧
    lastWs (cleanList l) = false := by
  unfold cleanList
  exact trimList_props _ (fun c hc => mem_collapseAux _ _ hc)
    (hasWsPair_collapseAux _ _)

theorem trimList_id {l : List Char} (h1 : headWs l = false)
    (h2 : lastWs l = false) : trimList l = l := by
  unfold trimList
  rw [dropWhile_ws_id h1, dropWhile_ws_id (by rw [headWs_reverse]; exact h2),
    List.reverse_reverse]

theorem replaceSeps_id {l : List Char}
    (h : ∀ c ∈ l, c.toNat ≠ 0x2028 ∧ c.toNat ≠ 0x2029) :
    replaceSeps l = l := by
  unfold replaceSeps
  induction l with
  | nil => rfl
  | cons c rest ih =>
    rw [List.map_cons]
    have hc := h c (List.mem_cons_self c rest)
    rw [if_neg (by simp [hc.1, hc.2]),
      ih (fun d hd => h d (List.mem_cons_of_mem c hd))]

theorem replaceNewls_id :
    ∀ {l : List Char}, (∀ c ∈ l, c ≠ '\n' ∧ c ≠ '\r') →
      replaceNewls l = l := by
  intro l
  induction l with
  | nil => intro _; rfl
  | cons c rest ih =>
    intro h
    have hc := h c (List.mem_cons_self c rest)
    cases rest with
    | nil => simp [replaceNewls, hc.1]
    | cons d rest2 =>
      rw [show replaceNewls (c :: d :: rest2) =
        (if c = '\r' && d = '\n' then ' ' :: replaceNewls rest2
         else if c = '\n' then ' ' :: replaceNewls (d :: rest2)
         else c :: replaceNewls (d :: rest2)) from rfl]
      rw [if_neg (by simp [hc.2]), if_neg hc.1,
        ih (fun e he => h e (List.mem_cons_of_mem c he))]

theorem cleanList_idem (l : List Char) :
    cleanList (cleanList l) = cleanList l := by
  obtain ⟨hall, hpair, hhead, hlast⟩ := cleanList_props l
  have h1 : replaceSeps (cleanList l) = cleanList l := by
    refine replaceSeps_id (fun c hc => ⟨?_, ?_⟩) <;> intro he <;>
      have hw : isJsWs c = true := by simp [isJsWs, isJsWsNat, he]
    · have := hall c hc hw
      rw [this] at he
      exact absurd he (by decide)
    · have := hall c hc hw
      rw [this] at he
      exact absurd he (by decide)
  have h2 : replaceNewls (cleanList l) = cleanList l := by
    refine replaceNewls_id (fun c hc => ⟨?_, ?_⟩) <;> intro he <;>
      rw [he] at hc
    · have := hall _ hc (by decide)
      exact absurd this (by decide)
    · have := hall _ hc (by decide)
      exact absurd this (by decide)
  have h3 : collapseAux false (cleanList l) = cleanList l :=
    collapseAux_id _ false hall hpair (fun _ => hhead)
  show trimList (collapseAux false (replaceNewls (replaceSeps
    (cleanList l)))) = cleanList l
  rw [h1, h2, h3]
  exact trimList_id hhead hlast

theorem hasWsPair_of_hasDoubleSpace :
    ∀ {l : List Char}, hasDoubleSpace l = true → hasWsPair l = true := by
  intro l
  induction l with
  | nil =>
    intro h
    rw [show hasDoubleSpace [] = false from rfl] at h
    exact absurd h Bool.false_ne_true
  | cons a rest ih =>
    intro h
    cases rest with
    | nil =>
      rw [show hasDoubleSpace [a] = false from rfl] at h
      exact absurd h Bool.false_ne_true
    | cons b rest2 =>
      rw [show hasDoubleSpace (a :: b :: rest2) =
        ((a = ' ' && b = ' ') || hasDoubleSpace (b :: rest2)) from rfl] at h
      rw [show hasWsPair (a :: b :: rest2) =
        ((isJsWs a && isJsWs b) || hasWsPair (b :: rest2)) from rfl]
      rcases Bool.or_eq_true_iff.mp h with h | h
      · obtain ⟨ha, hb⟩ := Bool.and_eq_true_iff.mp h
        rw [show a = ' ' from by simpa using ha,
          show b = ' ' from by simpa using hb]
        simp [isJsWs, isJsWsNat]
      · rw [ih h]; simp

/-! ## Lemmas about trimming, extraction and the base64 alphabet -/

theorem mkStr_eq_empty_iff {l : List Char} : (⟨l⟩ : String) = "" ↔ l = [] := by
  constructor
  · intro h
    exact congrArg String.data h
  · intro h
    rw [h]

theorem trimList_eq_nil_iff {l : List Char} :
    trimList l = [] ↔ ∀ c ∈ l, isJsWs c = true := by
  unfold trimList
  rw [List.reverse_eq_nil_iff, List.dropWhile_eq_nil_iff]
  constructor
  · intro h c hc
    rcases List.mem_append.mp
        ((List.takeWhile_append_dropWhile (p := isJsWs) (l := l)) ▸ hc) with
      hc2 | hc2
    · exact List.mem_takeWhile_imp hc2
    · exact h c (List.mem_reverse.mpr hc2)
  · intro h c hc
    exact h c ((List.dropWhile_sublist isJsWs).subset
      (List.mem_reverse.mp hc))

theorem jsTrim_pos_iff (v : String) :
    0 < (jsTrim v).length ↔ v.data.any (fun c => !isJsWs c) = true := by
  have hlen : (jsTrim v).length = (trimList v.data).length := rfl
  rw [hlen, List.length_pos, ne_eq, trimList_eq_nil_iff]
  simp

theorem jsTrim_eq_empty_iff (v : String) :
    jsTrim v = "" ↔ ∀ c ∈ v.data, isJsWs c = true := by
  unfold jsTrim
  rw [mkStr_eq_empty_iff, trimList_eq_nil_iff]

theorem extractString_eq_spec (source : Json) :
    ∀ keys, extractString source keys = extractStringSpec source keys := by
  intro keys
  induction keys with
  | nil => rfl
  | cons key rest ih =>
    have he : extractString source (key :: rest) =
        (match jget source key with
         | some (Json.str v) =>
           if 0 < (jsTrim v).length then v else extractString source rest
         | _ => extractString source rest) := rfl
    have hs : extractStringSpec source (key :: rest) =
        (match qualifyingValue source key with
         | some v => v
         | none => extractStringSpec source rest) := by
      unfold extractStringSpec
      rw [List.filterMap_cons]
      cases qualifyingValue source key <;> rfl
    rw [he, hs]
    cases hj : jget source key with
    | none => rw [show qualifyingValue source key = none from by
        unfold qualifyingValue; rw [hj]]; exact ih
    | some j =>
      cases j with
      | str v =>
        by_cases hq : v.data.any (fun c => !isJsWs c) = true
        · rw [show qualifyingValue source key = some v from by
            unfold qualifyingValue; rw [hj]; simp [hq]]
          show (if 0 < (jsTrim v).length then v
            else extractString source rest) = v
          rw [if_pos ((jsTrim_pos_iff v).mpr hq)]
        · rw [show qualifyingValue source key = none from by
            unfold qualifyingValue; rw [hj]; simp [hq]]
          show (if 0 < (jsTrim v).length then v
            else extractString source rest) = extractStringSpec source rest
          rw [if_neg (fun hp => hq ((jsTrim_pos_iff v).mp hp))]
          exact ih
      | null => rw [show qualifyingValue source key = none from by
          unfold qualifyingValue; rw [hj]]; exact ih
      | bool b => rw [show qualifyingValue source key = none from by
          unfold qualifyingValue; rw [hj]]; exact ih
      | num q => rw [show qualifyingValue source key = none from by
          unfold qualifyingValue; rw [hj]]; exact ih
      | arr elems => rw [show qualifyingValue source key = none from by
          unfold qualifyingValue; rw [hj]]; exact ih
      | obj fields => rw [show qualifyingValue source key = none from by
          unfold qualifyingValue; rw [hj]]; exact ih

theorem isB64Char_not_ws {c : Char} (h : isB64Char c = true) :
    isJsWs c = false := by
  unfold isB64Char at h
  unfold isJsWs isJsWsNat
  simp only [Bool.or_eq_true, decide_eq_true_eq, Bool.and_eq_true] at h
  simp only [Bool.or_eq_false_iff, decide_eq_false_iff_not, Bool.and_eq_false_iff,
    decide_eq_true_eq]
  omega

theorem base64Pattern_not_blank {s : String} (h : base64Pattern s = true) :
    ¬(jsTrim s = "") := by
  unfold base64Pattern at h
  rw [Bool.and_eq_true] at h
  obtain ⟨hne, hall⟩ := h
  rw [List.all_eq_true] at hall
  intro hblank
  rw [jsTrim_eq_empty_iff] at hblank
  cases hd : s.data with
  | nil =>
    have : s = "" := by
      cases s with
      | mk l => exact mkStr_eq_empty_iff.mpr hd
    rw [decide_eq_true_eq] at hne
    exact hne this
  | cons c rest =>
    have hc : c ∈ s.data := by rw [hd]; exact List.mem_cons_self c rest
    have hw := hblank c hc
    rw [isB64Char_not_ws (hall c hc)] at hw
    exact absurd hw (by decide)

/-! ## Claim theorems -/

/-- C1: for every success (2xx) provider response, the result status of
createViduVideo is exactly the spec's classification of the extracted
raw status string and extracted video URL: a supplied raw status is
lower-cased and classified (prefix complete, prefix fail or exact error,
otherwise queued); with no raw status, completed exactly when a video
URL was extracted, otherwise queued. -/
theorem c1_success_status_mapping (env : ViduEnv)
    (options : CreateViduVideoOptions) (response : HttpResponse)
    (hkey : strOptTruthy env.apiKey = true) (hok : response.ok = true) :
    ∃ r, (createViduVideo env options response).1 = Except.ok r ∧
      r.status = statusSpecOfBody
        (extractString (parsedBody response.body) ["status"])
        (extractString (parsedBody response.body) videoUrlKeys) := by
  unfold createViduVideo
  rw [if_pos hkey, if_pos hok]
  exact ⟨_, rfl, rfl⟩

/-- Witness for C1 at the spec's own example: upstream body
status FAILED_TIMEOUT maps to result status failed. -/
theorem c1_success_status_mapping_witness :
    ∃ r, (createViduVideo ⟨some "key", none⟩
        ⟨"a cat", 4, "16:9", none, none⟩
        ⟨true, some (Json.obj [("status", Json.str "FAILED_TIMEOUT")])⟩).1 =
      Except.ok r ∧ r.status = ViduVideoStatus.failed := by
  obtain ⟨r, h1, h2⟩ := c1_success_status_mapping ⟨some "key", none⟩
    ⟨"a cat", 4, "16:9", none, none⟩
    ⟨true, some (Json.obj [("status", Json.str "FAILED_TIMEOUT")])⟩ rfl rfl
  refine ⟨r, h1, ?_⟩
  rw [h2]
  rfl

/-- C2: for every provider response outside the success range,
createViduVideo does not raise: it returns a result with empty videoUrl,
status failed, and rawResponse equal to the parsed body, or undefined
(none) when the body could not be parsed as JSON. -/
theorem c2_http_failure_result (env : ViduEnv)
    (options : CreateViduVideoOptions) (response : HttpResponse)
    (hkey : strOptTruthy env.apiKey = true) (hok : response.ok = false) :
    (createViduVideo env options response).1 =
      Except.ok
        { videoUrl := ""
          status := ViduVideoStatus.failed
          previewImageUrl := none
          jobId := none
          rawResponse := response.body } := by
  unfold createViduVideo
  rw [if_pos hkey, if_neg (by rw [hok]; exact (by decide : ¬(false = true)))]

/-- Witness for C2: a 500-style response with a parseable body yields
the failed result and no exception. -/
theorem c2_http_failure_result_witness :
    (createViduVideo ⟨some "key", none⟩ ⟨"a cat", 4, "16:9", none, none⟩
        ⟨false, some (Json.obj [("message", Json.str "boom")])⟩).1 =
      Except.ok
        { videoUrl := ""
          status := ViduVideoStatus.failed
          previewImageUrl := none
          jobId := none
          rawResponse := some (Json.obj [("message", Json.str "boom")]) } :=
  c2_http_failure_result ⟨some "key", none⟩ ⟨"a cat", 4, "16:9", none, none⟩
    ⟨false, some (Json.obj [("message", Json.str "boom")])⟩ rfl rfl

/-- C9: a call made while the VIDU_API_KEY credential is absent from the
environment raises the configuration error and issues no outbound
request. -/
theorem c9_missing_credential (env : ViduEnv)
    (options : CreateViduVideoOptions) (response : HttpResponse)
    (hkey : env.apiKey = none) :
    createViduVideo env options response =
      (Except.error VIDU_KEY_ERROR, []) := by
  unfold createViduVideo
  rw [hkey]
  rfl

/-- Witness for C9 at a concrete input. -/
theorem c9_missing_credential_witness :
    createViduVideo ⟨none, none⟩ ⟨"a cat", 4, "16:9", none, none⟩
        ⟨true, some (Json.obj [("video_url", Json.str "https://x/y.mp4")])⟩ =
      (Except.error VIDU_KEY_ERROR, []) :=
  c9_missing_credential ⟨none, none⟩ ⟨"a cat", 4, "16:9", none, none⟩
    ⟨true, some (Json.obj [("video_url", Json.str "https://x/y.mp4")])⟩ rfl

/-- C6: clampDuration substitutes the default 4 when the value is
absent, NaN, or non-finite, and otherwise clamps into the closed
interval from 1 to 8; in particular the spec's five sample points hold
and in-range values pass through unchanged. -/
theorem c6_clampDuration_policy (q : Rat) :
    clampDuration none = 4 ∧ clampDuration (some JsNum.nan) = 4 ∧
    clampDuration (some JsNum.posInf) = 4 ∧
    clampDuration (some JsNum.negInf) = 4 ∧
    clampDuration (some (JsNum.fin 0)) = 1 ∧
    clampDuration (some (JsNum.fin (17 / 2))) = 8 ∧
    clampDuration (some (JsNum.fin 4)) = 4 ∧
    1 ≤ clampDuration (some (JsNum.fin q)) ∧
    clampDuration (some (JsNum.fin q)) ≤ 8 ∧
    (1 ≤ q → q ≤ 8 → clampDuration (some (JsNum.fin q)) = q) := by
  unfold clampDuration MIN_DURATION_SECONDS MAX_DURATION_SECONDS
    DEFAULT_DURATION_SECONDS
  refine ⟨rfl, rfl, rfl, rfl, by norm_num, by norm_num, by norm_num,
    ?_, ?_, ?_⟩
  · exact le_min (by norm_num) (le_max_left 1 q)
  · exact min_le_left 8 _
  · intro h1 h8
    show min (8 : Rat) (max 1 q) = q
    rw [max_eq_right h1]
    exact min_eq_right h8

/-- Witness for C6: the in-range value 3 passes through unchanged. -/
theorem c6_clampDuration_policy_witness :
    (1 : Rat) ≤ 3 ∧ (3 : Rat) ≤ 8 ∧
    clampDuration (some (JsNum.fin 3)) = 3 :=
  ⟨by norm_num, by norm_num,
    (c6_clampDuration_policy 3).2.2.2.2.2.2.2.2.2 (by norm_num)
      (by norm_num)⟩

/-- C10: extractString returns the value of the first candidate key
whose value is a string with at least one non-whitespace character,
unmodified; non-strings and whitespace-only strings are skipped and the
empty string is returned when no candidate qualifies; consequently on
every success response the previewImageUrl and jobId result fields are
present strings, never omitted. -/
theorem c10_extractString_first_qualifying :
    (∀ source keys,
      extractString source keys = extractStringSpec source keys) ∧
    ∀ env options response, strOptTruthy env.apiKey = true →
      response.ok = true →
      ∃ r, (createViduVideo env options response).1 = Except.ok r ∧
        r.previewImageUrl =
          some (extractString (parsedBody response.body)
            previewImageUrlKeys) ∧
        r.jobId =
          some (extractString (parsedBody response.body) jobIdKeys) := by
  refine ⟨extractString_eq_spec, ?_⟩
  intro env options response hkey hok
  unfold createViduVideo
  rw [if_pos hkey, if_pos hok]
  exact ⟨_, rfl, rfl, rfl⟩

/-- Witness for C10: a body whose first preview candidates are a number
and a whitespace-only string falls through to the third candidate, whose
surrounding whitespace is preserved; the job id comes from the id key;
both fields are present. -/
theorem c10_extractString_first_qualifying_witness :
    ∃ r, (createViduVideo ⟨some "key", none⟩
        ⟨"a cat", 4, "16:9", none, none⟩
        ⟨true, some (Json.obj
          [("preview_image_url", Json.num 3),
           ("previewImageUrl", Json.str "   "),
           ("thumbnail_url", Json.str " pic "),
           ("id", Json.str "j1")])⟩).1 = Except.ok r ∧
      r.previewImageUrl = some " pic " ∧ r.jobId = some "j1" := by
  obtain ⟨r, h1, h2, h3⟩ :=
    c10_extractString_first_qualifying.2 ⟨some "key", none⟩
      ⟨"a cat", 4, "16:9", none, none⟩
      ⟨true, some (Json.obj
        [("preview_image_url", Json.num 3),
         ("previewImageUrl", Json.str "   "),
         ("thumbnail_url", Json.str " pic "),
         ("id", Json.str "j1")])⟩ rfl rfl
  refine ⟨r, h1, ?_, ?_⟩
  · rw [h2]
    rfl
  · rw [h3]
    rfl

theorem jsTrim_length_ne_zero {x : String} (h : jsTrim x ≠ "") :
    ¬((jsTrim x).length = 0) := by
  intro h0
  apply h
  have hl : trimList x.data = [] := List.length_eq_zero.mp h0
  show (⟨trimList x.data⟩ : String) = ""
  exact mkStr_eq_empty_iff.mpr hl

/-- C3 fails on the code: a success response whose body is
status Processing (and carries no video URL) yields an empty videoUrl
with status queued, not failed. -/
theorem c3_counterexample :
    (createViduVideo ⟨some "key", none⟩ ⟨"a cat", 4, "16:9", none, none⟩
        ⟨true, some (Json.obj [("status", Json.str "Processing")])⟩).1 =
      Except.ok
        { videoUrl := ""
          status := ViduVideoStatus.queued
          previewImageUrl := some ""
          jobId := some ""
          rawResponse :=
            some (Json.obj [("status", Json.str "Processing")]) } ∧
    ViduVideoStatus.queued ≠ ViduVideoStatus.failed :=
  ⟨rfl, by decide⟩

/-- C3 amended: ignoring responses whose body supplies a raw status
string (those set the status from the label alone, independently of the
video URL), videoUrl is empty exactly when the status is not completed:
empty with status failed on an HTTP failure, empty with status queued on
a success response without a video URL, and non-empty with status
completed otherwise. -/
theorem c3_empty_videoUrl_amended (env : ViduEnv)
    (options : CreateViduVideoOptions) (response : HttpResponse)
    (hkey : strOptTruthy env.apiKey = true)
    (hnoraw : response.ok = false ∨
      extractString (parsedBody response.body) ["status"] = "") :
    ∃ r, (createViduVideo env options response).1 = Except.ok r ∧
      (r.videoUrl = "" ↔ r.status ≠ ViduVideoStatus.completed) := by
  unfold createViduVideo
  rw [if_pos hkey]
  cases hok : response.ok with
  | false =>
    refine ⟨_, rfl, ?_⟩
    simp
  | true =>
    rcases hnoraw with hfalse | hraw
    · rw [hok] at hfalse
      exact absurd hfalse (by decide)
    · refine ⟨_, rfl, ?_⟩
      dsimp only
      rw [hraw]
      rw [if_neg (by simp)]
      by_cases hv :
          extractString (parsedBody response.body) videoUrlKeys = ""
      · rw [hv, if_neg (by simp)]
        simp
      · rw [if_pos hv]
        simp [hv]

/-- Witness for the amended C3: a success body with a video URL and no
status field gives a non-empty videoUrl and status completed. -/
theorem c3_empty_videoUrl_amended_witness :
    ∃ r, (createViduVideo ⟨some "key", none⟩
        ⟨"a cat", 4, "16:9", none, none⟩
        ⟨true, some (Json.obj
          [("video_url", Json.str "https://x/y.mp4")])⟩).1 =
      Except.ok r ∧
      (r.videoUrl = "" ↔ r.status ≠ ViduVideoStatus.completed) := by
  exact c3_empty_videoUrl_amended ⟨some "key", none⟩
    ⟨"a cat", 4, "16:9", none, none⟩
    ⟨true, some (Json.obj [("video_url", Json.str "https://x/y.mp4")])⟩
    rfl (Or.inr rfl)

/-- C4 fails on the code: on the non-2xx path with an unparseable body,
rawResponse is undefined (none), not the empty object the claim
requires on every return path. -/
theorem c4_rawResponse_counterexample :
    (createViduVideo ⟨some "key", none⟩ ⟨"a cat", 4, "16:9", none, none⟩
        ⟨false, none⟩).1 =
      Except.ok
        { videoUrl := ""
          status := ViduVideoStatus.failed
          previewImageUrl := none
          jobId := none
          rawResponse := none } ∧
    (none : Option Json) ≠ some (Json.obj []) :=
  ⟨rfl, fun h => Option.noConfusion h⟩

/-- C4 amended: on success (2xx) responses rawResponse carries the full
parsed body (the empty object when parsing failed or the body was JSON
null); on the non-2xx path it carries the parsed body, or undefined
(none) when parsing failed. -/
theorem c4_rawResponse_amended (env : ViduEnv)
    (options : CreateViduVideoOptions) (response : HttpResponse)
    (hkey : strOptTruthy env.apiKey = true) :
    ∃ r, (createViduVideo env options response).1 = Except.ok r ∧
      r.rawResponse =
        (if response.ok then some (parsedBody response.body)
         else response.body) := by
  unfold createViduVideo
  rw [if_pos hkey]
  cases hok : response.ok with
  | true => exact ⟨_, rfl, rfl⟩
  | false => exact ⟨_, rfl, rfl⟩

/-- Witness for the amended C4: a success response with an unparseable
body yields rawResponse equal to the empty object. -/
theorem c4_rawResponse_amended_witness :
    ∃ r, (createViduVideo ⟨some "key", none⟩
        ⟨"a cat", 4, "16:9", none, none⟩ ⟨true, none⟩).1 =
      Except.ok r ∧ r.rawResponse = some (Json.obj []) := by
  obtain ⟨r, h1, h2⟩ := c4_rawResponse_amended ⟨some "key", none⟩
    ⟨"a cat", 4, "16:9", none, none⟩ ⟨true, none⟩ rfl
  refine ⟨r, h1, ?_⟩
  rw [h2]
  rfl

/-- C7: for every base64 string accepted by the schema whose decoding is
non-blank UTF-8 text, prompt resolution returns the decoded text, and
the plain prompt field is ignored whatever its value (the input is
universally quantified). -/
theorem c7_promptBase64_resolution (decode : String → String)
    (input : GenerateViduVideoInput) (s : String)
    (hb : input.promptBase64 = some s) (hpat : base64Pattern s = true)
    (hnb : jsTrim (decode s) ≠ "") :
    resolvePrompt decode input = Except.ok (decode s) := by
  have hne : s ≠ "" := by
    intro he
    rw [he] at hpat
    exact absurd hpat (by decide)
  simp only [resolvePrompt, hb]
  rw [if_pos hne, if_neg (jsTrim_length_ne_zero hnb)]

/-- Witness for C7: a concrete base64 prompt decoding to hello, with a
conflicting plain prompt field that is ignored. -/
theorem c7_promptBase64_resolution_witness :
    resolvePrompt (fun _ => "hello")
      ⟨some "ignored plain prompt", some "aGVsbG8=", none, none, none,
        none⟩ = Except.ok "hello" :=
  c7_promptBase64_resolution (fun _ => "hello")
    ⟨some "ignored plain prompt", some "aGVsbG8=", none, none, none, none⟩
    "aGVsbG8=" rfl (by decide) (by decide)

/-- C8: when both the prompt and promptBase64 fields are absent or blank
(under the tool schema, which forbids a present-but-blank promptBase64),
the normalizer fails with the missing-prompt error and no outbound
request is made. -/
theorem c8_missing_prompt_error (decode : String → String) (env : ViduEnv)
    (input : GenerateViduVideoInput) (response : HttpResponse)
    (hschema : input.promptBase64.all base64Pattern = true)
    (hp : optBlank input.prompt) (hb : optBlank input.promptBase64) :
    generateViduVideo decode env input response =
      (Except.error MISSING_PROMPT_ERROR, []) := by
  have hres : resolvePrompt decode input =
      Except.error MISSING_PROMPT_ERROR := by
    rcases hb with hbn | ⟨b, hbs, hbblank⟩
    · simp only [resolvePrompt, hbn]
      rcases hp with hpn | ⟨p, hps, hpblank⟩
      · simp only [hpn]
      · simp only [hps]
        rw [if_neg (by rw [hpblank]; decide)]
    · rw [hbs] at hschema
      have hpatb : base64Pattern b = true := hschema
      exact absurd hbblank (base64Pattern_not_blank hpatb)
  unfold generateViduVideo
  rw [hres]

/-- Witness for C8: a whitespace-only plain prompt with no promptBase64
produces the missing-prompt error and an empty request list. -/
theorem c8_missing_prompt_error_witness :
    generateViduVideo (fun _ => "") ⟨some "key", none⟩
      ⟨some "   ", none, none, none, none, none⟩ ⟨true, none⟩ =
      (Except.error MISSING_PROMPT_ERROR, []) :=
  c8_missing_prompt_error (fun _ => "") ⟨some "key", none⟩
    ⟨some "   ", none, none, none, none, none⟩ ⟨true, none⟩ rfl
    (Or.inr ⟨"   ", rfl, by decide⟩) (Or.inl rfl)

/-- C5: the prompt sanitizer is idempotent, and its output contains no
U+2028 or U+2029, no LF or CR, no run of two or more consecutive spaces,
and no leading or trailing whitespace. -/
theorem c5_sanitizer_idempotent_and_clean (s : String) :
    cleanPromptForVidu (cleanPromptForVidu s) = cleanPromptForVidu s ∧
    (cleanPromptForVidu s).data.all
      (fun c => !(c.toNat = 0x2028 || c.toNat = 0x2029 ||
        c = '\n' || c = '\r')) = true ∧
    hasDoubleSpace (cleanPromptForVidu s).data = false ∧
    headWs (cleanPromptForVidu s).data = false ∧
    lastWs (cleanPromptForVidu s).data = false := by
  obtain ⟨hall, hpair, hhead, hlast⟩ := cleanList_props s.data
  have hdata : (cleanPromptForVidu s).data = cleanList s.data := rfl
  refine ⟨?_, ?_, ?_, ?_, ?_⟩
  · show (⟨cleanList (cleanList s.data)⟩ : String) = ⟨cleanList s.data⟩
    rw [cleanList_idem]
  · rw [hdata, List.all_eq_true]
    intro c hc
    show (!(decide (c.toNat = 0x2028) || decide (c.toNat = 0x2029) ||
      decide (c = '\n') || decide (c = '\r'))) = true
    simp only [Bool.not_eq_true', Bool.or_eq_false_iff,
      decide_eq_false_iff_not]
    refine ⟨⟨⟨?_, ?_⟩, ?_⟩, ?_⟩
    · intro he
      have hw : isJsWs c = true := by
        unfold isJsWs isJsWsNat
        rw [he]
        decide
      have hsp := hall c hc hw
      rw [hsp] at he
      exact absurd he (by decide)
    · intro he
      have hw : isJsWs c = true := by
        unfold isJsWs isJsWsNat
        rw [he]
        decide
      have hsp := hall c hc hw
      rw [hsp] at he
      exact absurd he (by decide)
    · intro he
      rw [he] at hc
      have hsp := hall _ hc (by decide)
      exact absurd hsp (by decide)
    · intro he
      rw [he] at hc
      have hsp := hall _ hc (by decide)
      exact absurd hsp (by decide)
  · rw [hdata]
    cases hds : hasDoubleSpace (cleanList s.data) with
    | false => rfl
    | true =>
      have hwp := hasWsPair_of_hasDoubleSpace hds
      rw [hpair] at hwp
      exact absurd hwp (by decide)
  · rw [hdata]
    exact hhead
  · rw [hdata]
    exact hlast
